import Mathlib

/-!
Verification of the csv2json conversion engine against its specification.

The program converts CSV text into a JSON array of objects.  The repository
holds several near-duplicate Go variants of the same core:
- `fieldsToRecord` (record builder, identical in every variant),
- `getCsvReader` (byte-order-mark-aware decoder; the package-main variants
  terminate the process on a read failure, the converter-package variant
  returns the error),
- `csv2Json` (the package-main conversion driver, which propagates data-row
  parse errors when `skipErrors` is false),
- `Instrument`/`buildRecords`/`parseColumnNames` (the converter-package
  driver used by the current CLI entry point).

The delimited-row reader (Go `encoding/csv`) and the JSON serializer
(Go `encoding/json`) are standard-library collaborators whose source is not
part of the repository; they are modelled from the specification.
-/

namespace Csv2Json

/-- A record is one row's worth of data keyed by column names (Go
`type record map[string]string`).  The Go map is modelled as an association
list with unique keys: `recInsert` updates an existing key in place and
appends a fresh key, which matches Go map assignment observably (lookup of a
key yields the most recently assigned value, one entry per key). -/
abbrev record := List (String × String)

/-- Go map assignment `rec[k] = v`: replace the value of an existing key,
otherwise add the new key. -/
def recInsert (rec : record) (k v : String) : record :=
  match rec with
  | [] => [(k, v)]
  | (k1, v1) :: rest =>
    if k1 = k then (k1, v) :: rest else (k1, v1) :: recInsert rest k v

/-- Go map lookup `rec[k]`. -/
def recLookup (rec : record) (name : String) : Option String :=
  match rec with
  | [] => none
  | (k, v) :: rest => if k = name then some v else recLookup rest name

/-- The keys of a record. -/
def recKeys (rec : record) : List String := rec.map Prod.fst

/-- Loop body of `fieldsToRecord` (all variants):
`for i := range *colNames { rec[(*colNames)[i]] = (*rowValues)[i] }`.
The row is indexed by the column index without a bound check, so a row
strictly shorter than the column sequence hits an index-out-of-range panic;
the panic is modelled as `none`. -/
def fieldsToRecordAux : List String → List String → record → Option record
  | [], _, acc => some acc
  | _ :: _, [], _ => none
  | c :: cs, r :: rs, acc => fieldsToRecordAux cs rs (recInsert acc c r)

/-- `fieldsToRecord` from the source: creates key/value pairs from column
names and row values at corresponding indexes.  `none` models the Go panic
on a row shorter than the column-name sequence. -/
def fieldsToRecord (colNames rowValues : List String) : Option record :=
  fieldsToRecordAux colNames rowValues []

/-- Modelled from the spec: the record builder contract of section 4.4
("iterate column indices `0..len(columns)`, and for each index `i` where
`i < len(row)`, set `record[columns[i]] = row[i]`; indices where
`i >= len(row)` are skipped").  The guarded index iteration is realized as a
parallel walk that stops inserting once the row is exhausted. -/
def buildRecordAux : List String → List String → record → record
  | [], _, acc => acc
  | _ :: _, [], acc => acc
  | c :: cs, r :: rs, acc => buildRecordAux cs rs (recInsert acc c r)

/-- Modelled from the spec: `build_record(columns, row)` of section 4.4. -/
def build_record (colNames rowValues : List String) : record :=
  buildRecordAux colNames rowValues []

/-! ### Byte-order-mark-aware decoder (`getCsvReader`, from the source) -/

/-- A read failure of the underlying stream other than a clean end-of-input
(end-of-input is modelled as successfully delivering the empty content). -/
structure StreamErr where
  msg : String
deriving DecidableEq

/-- Outcome of `getCsvReader`: content handed to the CSV reader, an error
returned as a value, or unilateral process termination (`log.Fatal`). -/
inductive DecodeOut where
  | ok (content : List Char)
  | errVal (e : StreamErr)
  | fatalExit (e : StreamErr)
deriving DecidableEq

/-- The byte-order-mark stripping step shared by every `getCsvReader`
variant: peek the first rune, discard it only when it is U+FEFF, otherwise
put it back (input unchanged). -/
def stripBOM (cs : List Char) : List Char :=
  match cs with
  | [] => []
  | c :: rest => if c = '\uFEFF' then rest else c :: rest

/-- `getCsvReader` of the package-main variants: on a read failure other
than end-of-input during the peek it calls `log.Fatal`, terminating the
process instead of returning. -/
def getCsvReaderMain : Except StreamErr (List Char) → DecodeOut
  | .error e => .fatalExit e
  | .ok cs => .ok (stripBOM cs)

/-- `getCsvReader` of the converter package: on a read failure other than
end-of-input during the peek it returns `(nil, err)` to the caller. -/
def getCsvReaderConverter : Except StreamErr (List Char) → DecodeOut
  | .error e => .errVal e
  | .ok cs => .ok (stripBOM cs)

/-! ### Delimited-row reader

Modelled from the spec (section 4.2), since Go `encoding/csv` is an external
collaborator whose source is not in the repository: fields are
comma-separated with standard CSV quoting (quoted fields may contain commas
and embedded newlines, a doubled quote is a literal quote), malformed
quoting is a `QuoteError`, a row whose field count deviates from the fixed
count is a `FieldCountMismatch` identifying the offending line, blank lines
are skipped, and end-of-input is a normal terminal signal. -/

/-- The two parse-error kinds of the spec's error taxonomy, each identifying
the input line of the offending row. -/
inductive CsvError where
  | quoteError (line : Nat)
  | fieldCountMismatch (line : Nat)
deriving DecidableEq

/-- One syntactic item of the input: a successfully parsed row (with the
line it starts on) or a row with malformed quoting. -/
inductive ReadItem where
  | row (line : Nat) (fields : List String)
  | badQuote (line : Nat)
deriving DecidableEq

/-- Result of parsing one record: its fields plus the remaining input, or a
quoting error (input advanced past the offending line). -/
inductive RecOut where
  | done (fields : List String) (rest : List Char) (line : Nat)
  | bad (rest : List Char) (line : Nat)
deriving DecidableEq

/-- Parser mode: at the start of a field, inside an unquoted field, or
inside a quoted field. -/
inductive PMode where
  | fieldStart
  | unquoted
  | quoted
deriving DecidableEq

/-- Skip to just past the next newline (error recovery after a malformed
field, mirroring a line-oriented reader resuming at the next line). -/
def skipLine : List Char → Nat → List Char × Nat
  | [], l => ([], l)
  | '\n' :: rest, l => (rest, l + 1)
  | _ :: rest, l => skipLine rest l

/-- Parse one record.  The fuel only bounds recursion depth (each step
consumes at least one character every two steps, so any fuel of at least
twice the input length plus two never runs out); recursion is structural on
the fuel so that concrete inputs evaluate inside the kernel. -/
def parseRec : Nat → PMode → List Char → Nat → List Char → List String → RecOut
  | 0, _, _, l, _, _ => .bad [] l
  | fuel + 1, .fieldStart, cs, l, _, fsAcc =>
    match cs with
    | '"' :: rest => parseRec fuel .quoted rest l [] fsAcc
    | _ => parseRec fuel .unquoted cs l [] fsAcc
  | fuel + 1, .unquoted, cs, l, fldAcc, fsAcc =>
    match cs with
    | [] => .done (String.mk fldAcc.reverse :: fsAcc).reverse [] l
    | ',' :: rest => parseRec fuel .fieldStart rest l [] (String.mk fldAcc.reverse :: fsAcc)
    | '\n' :: rest => .done (String.mk fldAcc.reverse :: fsAcc).reverse rest (l + 1)
    | '"' :: rest =>
      match skipLine rest l with
      | (r, l2) => .bad r l2
    | c :: rest => parseRec fuel .unquoted rest l (c :: fldAcc) fsAcc
  | fuel + 1, .quoted, cs, l, fldAcc, fsAcc =>
    match cs with
    | [] => .bad [] l
    | '"' :: '"' :: rest => parseRec fuel .quoted rest l ('"' :: fldAcc) fsAcc
    | '"' :: ',' :: rest => parseRec fuel .fieldStart rest l [] (String.mk fldAcc.reverse :: fsAcc)
    | '"' :: '\n' :: rest => .done (String.mk fldAcc.reverse :: fsAcc).reverse rest (l + 1)
    | ['"'] => .done (String.mk fldAcc.reverse :: fsAcc).reverse [] l
    | '"' :: _ :: rest =>
      match skipLine rest l with
      | (r, l2) => .bad r l2
    | '\n' :: rest => parseRec fuel .quoted rest (l + 1) ('\n' :: fldAcc) fsAcc
    | c :: rest => parseRec fuel .quoted rest l (c :: fldAcc) fsAcc

/-- Split the whole input into items, skipping blank lines.  The fuel only
bounds the number of records (every record consumes at least one character,
so input length plus one never runs out). -/
def parseItemsF : Nat → List Char → Nat → List ReadItem
  | 0, _, _ => []
  | fuel + 1, cs, l =>
    match cs with
    | [] => []
    | '\n' :: rest => parseItemsF fuel rest (l + 1)
    | _ =>
      match parseRec (2 * cs.length + 2) .fieldStart cs l [] [] with
      | .done fs rest l2 => .row l fs :: parseItemsF fuel rest l2
      | .bad rest l2 => .badQuote l :: parseItemsF fuel rest l2

/-- Parse the full decoded input into the ordered sequence of row items,
lines numbered from 1. -/
def parseItems (cs : List Char) (l : Nat) : List ReadItem :=
  parseItemsF (cs.length + 1) cs l

/-- Result of one `Read` call on the delimited-row reader (end-of-input is
represented by exhaustion of the item list). -/
inductive ReadResult where
  | okRow (fields : List String)
  | errRow (e : CsvError)
deriving DecidableEq

/-- Field-count enforcement of one `Read`: a `FieldsPerRecord` of 0 means
"infer from the first record read", any positive value is enforced on every
row, deviations raise `FieldCountMismatch` for the offending line. -/
def readOne (fpr : Nat) : ReadItem → ReadResult × Nat
  | .badQuote l => (.errRow (.quoteError l), fpr)
  | .row l fs =>
    if fpr = 0 then (.okRow fs, fs.length)
    else if fs.length = fpr then (.okRow fs, fpr)
    else (.errRow (.fieldCountMismatch l), fpr)

/-! ### Diagnostics, options, conversion drivers -/

/-- One message sent to the diagnostic sink: a per-row skip notice or the
single post-loop summary with the skip count. -/
inductive Diag where
  | skippedRow (e : CsvError)
  | skippedSummary (count : Nat)
deriving DecidableEq

/-- Conversion configuration (Go `conversionOptions` / `converter.Options`):
the column-name override and the error-skipping flag.  The input and output
streams are passed explicitly. -/
structure Options where
  colNames : List String
  skipErrors : Bool
deriving DecidableEq

/-- Loop of `buildRecords` (converter package).  In the source the loop's
`rowFields, err := reader.Read()` shadows the named return value `err`, so
when `SkipErrors` is false a parse error only breaks the loop: the records
accumulated so far are returned together with a `nil` error.  `none` models
the `fieldsToRecord` panic. -/
def buildLoop02 (skip : Bool) (cols : List String) (fpr : Nat) :
    List ReadItem → Option (List record × Nat × List Diag)
  | [] => some ([], 0, [])
  | it :: rest =>
    match readOne fpr it with
    | (.okRow fs, fpr2) =>
      match fieldsToRecord cols fs, buildLoop02 skip cols fpr2 rest with
      | some r, some (recs, sk, ds) => some (r :: recs, sk, ds)
      | _, _ => none
    | (.errRow e, fpr2) =>
      if skip then
        match buildLoop02 skip cols fpr2 rest with
        | some (recs, sk, ds) => some (recs, sk + 1, Diag.skippedRow e :: ds)
        | none => none
      else some ([], 0, [])

/-- `buildRecords` (converter package): run the loop, then emit the single
summary diagnostic when any row was skipped.  Because of the shadowed `err`
it never reports an error to its caller. -/
def buildRecords02 (cols : List String) (skip : Bool) (fpr : Nat)
    (items : List ReadItem) : Option (List record × List Diag) :=
  match buildLoop02 skip cols fpr items with
  | none => none
  | some (recs, sk, ds) =>
    some (recs, if 0 < sk then ds ++ [Diag.skippedSummary sk] else ds)

/-- Outcome of the package-main conversion loop, which does propagate a
non-skipped error (`return err` inside the loop). -/
inductive Loop1Out where
  | ok (recs : List record) (skipped : Nat) (diags : List Diag)
  | fatal (e : CsvError) (skipped : Nat) (diags : List Diag)
  | panic
deriving DecidableEq

/-- Loop of `csv2Json` (package-main variants): end-of-input breaks, a parse
error is skipped (with counter and per-row diagnostic) when `skipErrors` is
set and otherwise aborts the conversion, a successful row is appended. -/
def buildLoop01 (skip : Bool) (cols : List String) (fpr : Nat) :
    List ReadItem → Loop1Out
  | [] => .ok [] 0 []
  | it :: rest =>
    match readOne fpr it with
    | (.okRow fs, fpr2) =>
      match fieldsToRecord cols fs with
      | none => .panic
      | some r =>
        match buildLoop01 skip cols fpr2 rest with
        | .ok recs sk ds => .ok (r :: recs) sk ds
        | out => out
    | (.errRow e, fpr2) =>
      if skip then
        match buildLoop01 skip cols fpr2 rest with
        | .ok recs sk ds => .ok recs (sk + 1) (Diag.skippedRow e :: ds)
        | .fatal e2 sk ds => .fatal e2 (sk + 1) (Diag.skippedRow e :: ds)
        | .panic => .panic
      else .fatal e 0 []

/-! ### JSON serialization

Modelled from the spec (section 6), since Go `encoding/json` is an external
collaborator whose source is not in the repository: the output is a single
JSON array, each element an object whose keys are the column names and
whose values are the raw field text, field order within an object not
contractually significant (entries are emitted in record order); the Go
encoder terminates the document with a newline. -/

/-- Escape one character for a JSON string literal. -/
def jsonEscapeChar (c : Char) : String :=
  if c = '"' then "\\\""
  else if c = '\\' then "\\\\"
  else if c = '\n' then "\\n"
  else String.singleton c

/-- A JSON string literal. -/
def jsonString (s : String) : String :=
  "\"" ++ String.join (s.toList.map jsonEscapeChar) ++ "\""

/-- A JSON object for one record. -/
def encodeRecord (rec : record) : String :=
  "\x7b" ++ String.intercalate ","
    (rec.map fun kv => jsonString kv.1 ++ ":" ++ jsonString kv.2) ++ "\x7d"

/-- The JSON array for the record collection. -/
def encodeRecords (recs : List record) : String :=
  "[" ++ String.intercalate "," (recs.map encodeRecord) ++ "]" ++ "\n"

/-- Outcome of one conversion: JSON written to the output stream together
with the diagnostics emitted (`ok`), an error with nothing written to the
output stream (`err`; output is buffered, so an aborted conversion writes
zero bytes), or a runtime panic. -/
inductive ConvOut where
  | ok (output : String) (diags : List Diag)
  | err (e : CsvError) (diags : List Diag)
  | panic
deriving DecidableEq

/-- Tail of `Instrument` after column resolution: `buildRecords` followed by
JSON encoding of the returned records. -/
def convFinish02 (skip : Bool) (cols : List String) (fpr : Nat)
    (items : List ReadItem) : ConvOut :=
  match buildRecords02 cols skip fpr items with
  | none => .panic
  | some (recs, ds) => .ok (encodeRecords recs) ds

/-- `Instrument` (converter package, the driver behind `Execute`): decode
the input, resolve columns (`parseColumnNames` consumes the first row as the
header when no override is given; end-of-input there yields an empty column
sequence, a parse error there is returned unconditionally), set
`FieldsPerRecord` to the column count, build the records and encode them. -/
def Instrument (o : Options) (input : List Char) : ConvOut :=
  let items := parseItems (stripBOM input) 1
  if o.colNames.isEmpty then
    match items with
    | [] => convFinish02 o.skipErrors [] 0 []
    | it :: rest =>
      match readOne 0 it with
      | (.okRow fs, _) => convFinish02 o.skipErrors fs fs.length rest
      | (.errRow e, _) => .err e []
  else
    convFinish02 o.skipErrors o.colNames o.colNames.length items

/-- Tail of `csv2Json` after column resolution: the loop, the deferred
summary diagnostic (emitted only when `skipErrors` is set and rows were
skipped), and JSON encoding on success. -/
def convFinish01 (skip : Bool) (cols : List String) (fpr : Nat)
    (items : List ReadItem) : ConvOut :=
  match buildLoop01 skip cols fpr items with
  | .panic => .panic
  | .fatal e sk ds =>
    .err e (if skip = true ∧ 0 < sk then ds ++ [Diag.skippedSummary sk] else ds)
  | .ok recs sk ds =>
    .ok (encodeRecords recs)
      (if skip = true ∧ 0 < sk then ds ++ [Diag.skippedSummary sk] else ds)

/-- `csv2Json` (package-main variants): decode the input, resolve columns
(first row as header when no override, end-of-input there is not an error,
a parse error there is returned unconditionally; a non-empty override sets
`FieldsPerRecord` and leaves the first row to be read as data), run the
loop, encode the accumulated records. -/
def csv2Json (o : Options) (input : List Char) : ConvOut :=
  let items := parseItems (stripBOM input) 1
  if o.colNames.isEmpty then
    match items with
    | [] => convFinish01 o.skipErrors [] 0 []
    | it :: rest =>
      match readOne 0 it with
      | (.okRow fs, fpr) => convFinish01 o.skipErrors fs fpr rest
      | (.errRow e, _) => .err e []
  else
    convFinish01 o.skipErrors o.colNames o.colNames.length items

/-- Reference decomposition of a reader run for the skip policy: the valid
rows (in order) and the parse errors (in order) that a full scan of the
items produces under field-count enforcement starting at `fpr`. -/
def scanRows (fpr : Nat) : List ReadItem → List (List String) × List CsvError
  | [] => ([], [])
  | it :: rest =>
    match readOne fpr it with
    | (.okRow fs, fpr2) =>
      let s := scanRows fpr2 rest
      (fs :: s.1, s.2)
    | (.errRow e, fpr2) =>
      let s := scanRows fpr2 rest
      (s.1, e :: s.2)

/-! ### Helper lemmas about the record builder -/

/-- Kept left-biased choice on optional values (first lookup wins). -/
def optOr (a b : Option String) : Option String :=
  match a with
  | some v => some v
  | none => b

theorem recLookup_recInsert (rec : record) (k v name : String) :
    recLookup (recInsert rec k v) name =
      if k = name then some v else recLookup rec name := by
  induction rec with
  | nil => simp [recInsert, recLookup]
  | cons hd tl ih =>
    obtain ⟨k1, v1⟩ := hd
    by_cases h1 : k1 = k <;> by_cases h2 : k1 = name <;> by_cases h3 : k = name <;>
      simp_all [recInsert, recLookup]

theorem recKeys_recInsert (rec : record) (k v : String) :
    recKeys (recInsert rec k v) =
      if k ∈ recKeys rec then recKeys rec else recKeys rec ++ [k] := by
  induction rec with
  | nil => simp [recInsert, recKeys]
  | cons hd tl ih =>
    obtain ⟨k1, v1⟩ := hd
    by_cases h1 : k1 = k
    · subst h1
      simp [recInsert, recKeys]
    · simp only [recInsert, if_neg h1, recKeys, List.map_cons] at ih ⊢
      rw [ih]
      have h1s : ¬k = k1 := fun h => h1 h.symm
      by_cases h2 : k ∈ List.map Prod.fst tl <;> simp [h2, h1s, List.mem_cons]

theorem nodup_recKeys_recInsert {rec : record} (k v : String)
    (h : (recKeys rec).Nodup) : (recKeys (recInsert rec k v)).Nodup := by
  rw [recKeys_recInsert]
  by_cases h2 : k ∈ recKeys rec
  · simpa [h2] using h
  · simp [h2, List.nodup_append, h]

theorem fieldsToRecordAux_eq (cols row : List String) (acc : record)
    (h : cols.length ≤ row.length) :
    fieldsToRecordAux cols row acc = some (buildRecordAux cols row acc) := by
  induction cols generalizing row acc with
  | nil => simp [fieldsToRecordAux, buildRecordAux]
  | cons c cs ih =>
    cases row with
    | nil => simp at h
    | cons r rs =>
      simp only [fieldsToRecordAux, buildRecordAux]
      exact ih rs _ (by simpa using h)

theorem fieldsToRecord_eq (cols row : List String) (h : cols.length ≤ row.length) :
    fieldsToRecord cols row = some (build_record cols row) :=
  fieldsToRecordAux_eq cols row [] h

theorem recLookup_append (l1 l2 : record) (name : String) :
    recLookup (l1 ++ l2) name = optOr (recLookup l1 name) (recLookup l2 name) := by
  induction l1 with
  | nil => simp [recLookup, optOr]
  | cons hd tl ih =>
    obtain ⟨k, v⟩ := hd
    by_cases h : k = name <;> simp [recLookup, h, ih, optOr]

theorem recLookup_buildRecordAux (cols row : List String) (acc : record) (name : String) :
    recLookup (buildRecordAux cols row acc) name =
      optOr (recLookup ((cols.zip row).reverse) name) (recLookup acc name) := by
  induction cols generalizing row acc with
  | nil => simp [buildRecordAux, recLookup, optOr]
  | cons c cs ih =>
    cases row with
    | nil => simp [buildRecordAux, recLookup, optOr]
    | cons r rs =>
      simp only [buildRecordAux, List.zip_cons_cons, List.reverse_cons]
      rw [ih, recLookup_append]
      rw [recLookup_recInsert]
      cases recLookup ((cs.zip rs).reverse) name with
      | none =>
        by_cases h : c = name <;> simp [optOr, recLookup, h]
      | some v => simp [optOr]

theorem nodup_recKeys_buildRecordAux (cols row : List String) (acc : record)
    (h : (recKeys acc).Nodup) : (recKeys (buildRecordAux cols row acc)).Nodup := by
  induction cols generalizing row acc with
  | nil => simpa [buildRecordAux] using h
  | cons c cs ih =>
    cases row with
    | nil => simpa [buildRecordAux] using h
    | cons r rs => exact ih rs _ (nodup_recKeys_recInsert c r h)

theorem recLookup_zip_reverse_eq_none (cols row : List String) (name : String)
    (h : name ∉ cols) : recLookup ((cols.zip row).reverse) name = none := by
  induction cols generalizing row with
  | nil => simp [recLookup]
  | cons c cs ih =>
    cases row with
    | nil => simp [recLookup]
    | cons r rs =>
      simp only [List.zip_cons_cons, List.reverse_cons]
      rw [recLookup_append, ih rs fun hm => h (List.mem_cons_of_mem _ hm)]
      have hc : c ≠ name := fun he => h (he ▸ List.mem_cons_self _ _)
      simp [optOr, recLookup, hc]

theorem recLookup_zip_reverse_last (cols row : List String) (i : Nat) (name : String)
    (hlen : cols.length ≤ row.length) (hi : cols[i]? = some name)
    (hlast : ∀ j, i < j → cols[j]? ≠ some name) :
    recLookup ((cols.zip row).reverse) name = row[i]? := by
  induction cols generalizing row i with
  | nil => simp at hi
  | cons c cs ih =>
    cases row with
    | nil => simp at hlen
    | cons r rs =>
      simp only [List.zip_cons_cons, List.reverse_cons]
      rw [recLookup_append]
      cases i with
      | zero =>
        simp only [List.getElem?_cons_zero, Option.some_inj] at hi
        have hnotin : name ∉ cs := by
          intro hmem
          obtain ⟨j, hj⟩ := List.mem_iff_getElem?.mp hmem
          exact hlast (j + 1) (Nat.succ_pos j) (by simpa [List.getElem?_cons_succ] using hj)
        rw [recLookup_zip_reverse_eq_none cs rs name hnotin]
        simp [optOr, recLookup, hi]
      | succ i =>
        have h1 : cs[i]? = some name := by simpa using hi
        have h2 : ∀ j, i < j → cs[j]? ≠ some name := by
          intro j hj
          have := hlast (j + 1) (Nat.succ_lt_succ hj)
          simpa using this
        rw [ih rs i (by simpa using hlen) h1 h2]
        have hcs : i < cs.length := by
          rcases List.getElem?_eq_some.mp h1 with ⟨h, _⟩
          exact h
        have hrs : i < rs.length := lt_of_lt_of_le hcs (by simpa using hlen)
        rw [List.getElem?_cons_succ, List.getElem?_eq_getElem hrs]
        simp [optOr]

/-! ### Helper lemmas about the conversion loops -/

/-- A parsed data row as a reader item. -/
def rowItem (p : Nat × List String) : ReadItem := ReadItem.row p.1 p.2

theorem readOne_ok (l : Nat) (cols fs : List String) (h : fs.length = cols.length) :
    readOne cols.length (ReadItem.row l fs) = (ReadResult.okRow fs, cols.length) := by
  by_cases h0 : cols.length = 0 <;> simp [readOne, h0, h]

theorem buildLoop02_all_ok (skip : Bool) (cols : List String)
    (rows : List (Nat × List String)) (h : ∀ p ∈ rows, p.2.length = cols.length) :
    buildLoop02 skip cols cols.length (rows.map rowItem) =
      some (rows.map (fun p => build_record cols p.2), 0, []) := by
  induction rows with
  | nil => simp [buildLoop02]
  | cons p ps ih =>
    have hp : p.2.length = cols.length := h p (List.mem_cons_self _ _)
    simp only [List.map_cons, rowItem, buildLoop02]
    rw [readOne_ok p.1 cols p.2 hp]
    dsimp only
    rw [fieldsToRecord_eq cols p.2 (le_of_eq hp.symm)]
    rw [ih fun q hq => h q (List.mem_cons_of_mem _ hq)]

theorem buildLoop01_all_ok (skip : Bool) (cols : List String)
    (rows : List (Nat × List String)) (h : ∀ p ∈ rows, p.2.length = cols.length) :
    buildLoop01 skip cols cols.length (rows.map rowItem) =
      Loop1Out.ok (rows.map (fun p => build_record cols p.2)) 0 [] := by
  induction rows with
  | nil => simp [buildLoop01]
  | cons p ps ih =>
    have hp : p.2.length = cols.length := h p (List.mem_cons_self _ _)
    simp only [List.map_cons, rowItem, buildLoop01]
    rw [readOne_ok p.1 cols p.2 hp]
    dsimp only
    rw [fieldsToRecord_eq cols p.2 (le_of_eq hp.symm)]
    rw [ih fun q hq => h q (List.mem_cons_of_mem _ hq)]

theorem buildLoop02_skip_eq_scan (cols : List String) (fpr : Nat)
    (items : List ReadItem)
    (h : ∀ r ∈ (scanRows fpr items).1, cols.length ≤ r.length) :
    buildLoop02 true cols fpr items =
      some ((scanRows fpr items).1.map (build_record cols),
            (scanRows fpr items).2.length,
            (scanRows fpr items).2.map Diag.skippedRow) := by
  induction items generalizing fpr with
  | nil => simp [buildLoop02, scanRows]
  | cons it rest ih =>
    rcases hr : readOne fpr it with ⟨res, fpr2⟩
    cases res with
    | okRow fs =>
      have hscan : scanRows fpr (it :: rest) =
          (fs :: (scanRows fpr2 rest).1, (scanRows fpr2 rest).2) := by
        simp [scanRows, hr]
      rw [hscan] at h
      have hfs : cols.length ≤ fs.length := h fs (List.mem_cons_self _ _)
      simp only [buildLoop02, hr, hscan]
      rw [fieldsToRecord_eq cols fs hfs]
      rw [ih fpr2 fun r hrm => h r (List.mem_cons_of_mem _ hrm)]
      simp [build_record]
    | errRow e =>
      have hscan : scanRows fpr (it :: rest) =
          ((scanRows fpr2 rest).1, e :: (scanRows fpr2 rest).2) := by
        simp [scanRows, hr]
      rw [hscan] at h
      simp only [buildLoop02, hr, hscan]
      rw [ih fpr2 h]
      simp

theorem buildRecords02_skip_eq (cols : List String) (fpr : Nat)
    (items : List ReadItem)
    (h : ∀ r ∈ (scanRows fpr items).1, cols.length ≤ r.length) :
    buildRecords02 cols true fpr items =
      some ((scanRows fpr items).1.map (build_record cols),
            ((scanRows fpr items).2.map Diag.skippedRow) ++
              (if 0 < (scanRows fpr items).2.length
               then [Diag.skippedSummary (scanRows fpr items).2.length] else [])) := by
  rw [buildRecords02, buildLoop02_skip_eq_scan cols fpr items h]
  by_cases hpos : 0 < (scanRows fpr items).2.length
  · simp [hpos]
  · have : (scanRows fpr items).2 = [] := by
      cases hs : (scanRows fpr items).2 with
      | nil => rfl
      | cons a l => rw [hs] at hpos; simp at hpos
    simp [this]

/-! ### Claim theorems -/

/-- Claim C1 (evaluation of the defect): for the spec's own example input
with skip_errors false, the claim says the conversion driver aborts with the
`FieldCountMismatch` for line 3 and writes zero bytes.  The current driver
`Instrument` violates this: in the source of `buildRecords` the loop's
`rowFields, err := reader.Read()` shadows the named return value `err`, so
the error only breaks the loop, `buildRecords` returns a nil error, and
`Instrument` reports success after writing the partial array for the rows
read before the error.  The package-main driver `csv2Json` (whose shipped
tests assert "Errors abort conversion") behaves as the claim states:
it propagates the line-3 `FieldCountMismatch` and writes nothing. -/
theorem C1_skip_false_abort_eval :
    Instrument ⟨[], false⟩ ("a,b,c\n1,2,3\nbad,line\nz,y,x\n".toList) =
        ConvOut.ok (encodeRecords [[("a", "1"), ("b", "2"), ("c", "3")]]) [] ∧
      csv2Json ⟨[], false⟩ ("a,b,c\n1,2,3\nbad,line\nz,y,x\n".toList) =
        ConvOut.err (CsvError.fieldCountMismatch 3) [] := by
  decide

/-- Claim C2 (counterexample): the claim states that the record builder is
total and that `build_record(["a","b"], ["1"])` yields the singleton record
`a ↦ 1`.  On the source, `fieldsToRecord` reads the row at every column
index without a bound check, so this call panics with an index out of range
(modelled as `none`) instead of returning any record. -/
theorem C2_short_row_counterexample :
    fieldsToRecord ["a", "b"] ["1"] = none := by decide

/-- Claim C2 (amended): whenever the row is at least as long as the
column-name sequence, `fieldsToRecord` is defined and agrees with the spec's
guarded builder `build_record` (it sets `record[columns[i]] = row[i]` for
every `i < len(columns)`); with an empty column sequence it returns the
empty record for any row.  A row strictly shorter than the column sequence
makes it panic rather than dropping the trailing keys. -/
theorem C2_builder_total_on_long_rows :
    (∀ cols row : List String, cols.length ≤ row.length →
        fieldsToRecord cols row = some (build_record cols row)) ∧
      ∀ row : List String, fieldsToRecord [] row = some [] :=
  ⟨fun cols row h => fieldsToRecord_eq cols row h, fun _ => rfl⟩

/-- Claim C2 witness: a concrete instance of the amended statement. -/
theorem C2_builder_witness :
    fieldsToRecord ["a", "b"] ["1", "2"] = some (build_record ["a", "b"] ["1", "2"]) :=
  C2_builder_total_on_long_rows.1 ["a", "b"] ["1", "2"] (by decide)

/-- Claim C3 (evaluation of the defect): on a first read that fails with an
error other than clean end-of-input, the package-main `getCsvReader` calls
`log.Fatal` and terminates the process, while the converter-package
`getCsvReader` returns the error as a value to its caller as the claim
requires. -/
theorem C3_decoder_error_propagation_eval :
    ∀ e : StreamErr,
      getCsvReaderMain (Except.error e) = DecodeOut.fatalExit e ∧
        getCsvReaderConverter (Except.error e) = DecodeOut.errVal e :=
  fun _ => ⟨rfl, rfl⟩

/-- Claim C4: when no column override is given and the header read yields a
parse error, both conversion drivers propagate that error and fail, for
either value of skip_errors — the error-skipping policy never applies to
the header row. -/
theorem C4_header_error_unconditionally_fatal :
    ∀ (input : List Char) (skip : Bool) (l : Nat) (rest : List ReadItem),
      parseItems (stripBOM input) 1 = ReadItem.badQuote l :: rest →
      Instrument ⟨[], skip⟩ input = ConvOut.err (CsvError.quoteError l) [] ∧
        csv2Json ⟨[], skip⟩ input = ConvOut.err (CsvError.quoteError l) [] := by
  intro input skip l rest hparse
  constructor
  · unfold Instrument
    rw [hparse]
    rfl
  · unfold csv2Json
    rw [hparse]
    rfl

/-- Claim C4 witness: the header line `a,"b,c` opens a quote that never
closes, a `QuoteError` on line 1; the conversion fails even with
skip_errors set. -/
theorem C4_header_error_witness :
    Instrument ⟨[], true⟩ ("a,\"b,c\n1,2,3\nz,y,x\n".toList) =
      ConvOut.err (CsvError.quoteError 1) [] :=
  (C4_header_error_unconditionally_fatal ("a,\"b,c\n1,2,3\nz,y,x\n".toList) true 1 []
    (by decide)).1

/-- Claim C5: with skip_errors true, `buildRecords` converts exactly the
valid rows in input order (each erroneous row contributes no record), emits
one per-row diagnostic per skipped row in order, and after the loop exactly
one summary diagnostic carrying the skip count when that count is positive;
on the spec's example input, `Instrument` produces the two-object array and
diagnostics reporting exactly one skipped row. -/
theorem C5_skip_true_policy :
    (∀ (cols : List String) (fpr : Nat) (items : List ReadItem),
        (∀ r ∈ (scanRows fpr items).1, cols.length ≤ r.length) →
        buildRecords02 cols true fpr items =
          some ((scanRows fpr items).1.map (build_record cols),
                ((scanRows fpr items).2.map Diag.skippedRow) ++
                  (if 0 < (scanRows fpr items).2.length
                   then [Diag.skippedSummary (scanRows fpr items).2.length] else []))) ∧
      Instrument ⟨[], true⟩ ("a,b,c\n1,2,3\nbad,line\nz,y,x\n".toList) =
        ConvOut.ok
          (encodeRecords [[("a", "1"), ("b", "2"), ("c", "3")],
                          [("a", "z"), ("b", "y"), ("c", "x")]])
          [Diag.skippedRow (CsvError.fieldCountMismatch 3), Diag.skippedSummary 1] :=
  ⟨buildRecords02_skip_eq, by decide⟩

/-- Claim C5 witness: the skip policy at the example's data rows (header
`a,b,c` already consumed, enforced field count 3; the line-3 row has two
fields). -/
theorem C5_skip_true_witness :
    buildRecords02 ["a", "b", "c"] true 3
        [ReadItem.row 2 ["1", "2", "3"], ReadItem.row 3 ["bad", "line"],
         ReadItem.row 4 ["z", "y", "x"]] =
      some ([[("a", "1"), ("b", "2"), ("c", "3")], [("a", "z"), ("b", "y"), ("c", "x")]],
            [Diag.skippedRow (CsvError.fieldCountMismatch 3), Diag.skippedSummary 1]) := by
  have h := C5_skip_true_policy.1 ["a", "b", "c"] 3
    [ReadItem.row 2 ["1", "2", "3"], ReadItem.row 3 ["bad", "line"],
     ReadItem.row 4 ["z", "y", "x"]] (by decide)
  rw [h]
  decide

/-- Claim C6: the byte-order-mark-aware decoder consumes a leading U+FEFF
when it is the very first character and otherwise leaves the input
unchanged, including a non-BOM first character; a stripped BOM does not
occur in the decoded stream unless it occurs later in the input. -/
theorem C6_bom_stripped_otherwise_unchanged :
    ∀ (cs : List Char) (c : Char),
      stripBOM ('\uFEFF' :: cs) = cs ∧
        (c ≠ '\uFEFF' → stripBOM (c :: cs) = c :: cs) ∧
        stripBOM [] = [] ∧
        ('\uFEFF' ∉ cs → '\uFEFF' ∉ stripBOM ('\uFEFF' :: cs)) := by
  intro cs c
  refine ⟨by simp [stripBOM], fun h => by simp [stripBOM, h], rfl, fun h => ?_⟩
  simpa [stripBOM] using h

/-- Claim C6 witness: a concrete BOM-led input and a concrete non-BOM-led
input. -/
theorem C6_bom_witness :
    stripBOM ['\uFEFF', 'a'] = ['a'] ∧ stripBOM ['x', 'a'] = ['x', 'a'] :=
  ⟨(C6_bom_stripped_otherwise_unchanged ['a'] 'x').1,
   (C6_bom_stripped_otherwise_unchanged ['a'] 'x').2.1 (by decide)⟩

/-- Claim C7: for every well-formed input (a header row followed by data
rows all having the header's field count) and no column override, both
conversion drivers succeed with no diagnostics and write the JSON array of
exactly one object per data row, in input row order. -/
theorem C7_valid_csv_row_count_and_order :
    ∀ (input : List Char) (skip : Bool) (hl : Nat) (hdr : List String)
      (rows : List (Nat × List String)),
      parseItems (stripBOM input) 1 = ReadItem.row hl hdr :: rows.map rowItem →
      (∀ p ∈ rows, p.2.length = hdr.length) →
      Instrument ⟨[], skip⟩ input =
          ConvOut.ok (encodeRecords (rows.map fun p => build_record hdr p.2)) [] ∧
        csv2Json ⟨[], skip⟩ input =
          ConvOut.ok (encodeRecords (rows.map fun p => build_record hdr p.2)) [] ∧
        (rows.map fun p => build_record hdr p.2).length = rows.length := by
  intro input skip hl hdr rows hparse hlen
  refine ⟨?_, ?_, by simp⟩
  · unfold Instrument
    rw [hparse]
    show convFinish02 skip hdr hdr.length (rows.map rowItem) = _
    unfold convFinish02 buildRecords02
    rw [buildLoop02_all_ok skip hdr rows hlen]
    simp
  · unfold csv2Json
    rw [hparse]
    show convFinish01 skip hdr hdr.length (rows.map rowItem) = _
    unfold convFinish01
    rw [buildLoop01_all_ok skip hdr rows hlen]
    simp

/-- Claim C7 witness: the spec's round-trip example with two data rows. -/
theorem C7_round_trip_witness :
    Instrument ⟨[], false⟩ ("a,b,c\n1,2,3\nz,y,x\n".toList) =
      ConvOut.ok (encodeRecords [[("a", "1"), ("b", "2"), ("c", "3")],
                                 [("a", "z"), ("b", "y"), ("c", "x")]]) [] := by
  have h := (C7_valid_csv_row_count_and_order ("a,b,c\n1,2,3\nz,y,x\n".toList) false 1
    ["a", "b", "c"] [(2, ["1", "2", "3"]), (3, ["z", "y", "x"])] (by decide) (by decide)).1
  rw [h]
  decide

/-- Claim C8: a non-empty column override is used unchanged as the
column-name sequence, its length is enforced as the field count on every
row read (a deviating row is a `FieldCountMismatch`), and the first input
row is converted as data rather than consumed as a header; on the example
body the override produces two data objects keyed by the override names. -/
theorem C8_override_resolver :
    (∀ (input : List Char) (skip : Bool) (cols : List String)
        (rows : List (Nat × List String)),
        cols ≠ [] →
        parseItems (stripBOM input) 1 = rows.map rowItem →
        (∀ p ∈ rows, p.2.length = cols.length) →
        Instrument ⟨cols, skip⟩ input =
            ConvOut.ok (encodeRecords (rows.map fun p => build_record cols p.2)) [] ∧
          csv2Json ⟨cols, skip⟩ input =
            ConvOut.ok (encodeRecords (rows.map fun p => build_record cols p.2)) []) ∧
      (∀ (cols : List String) (l : Nat) (fs : List String),
        cols ≠ [] → fs.length ≠ cols.length →
        readOne cols.length (ReadItem.row l fs) =
          (ReadResult.errRow (CsvError.fieldCountMismatch l), cols.length)) ∧
      Instrument ⟨["x", "y", "z"], false⟩ ("a,b,c\n1,2,3\n".toList) =
        ConvOut.ok (encodeRecords [[("x", "a"), ("y", "b"), ("z", "c")],
                                   [("x", "1"), ("y", "2"), ("z", "3")]]) [] := by
  refine ⟨?_, ?_, by decide⟩
  · intro input skip cols rows hne hparse hlen
    have hempty : cols.isEmpty = false := by
      cases cols with
      | nil => exact absurd rfl hne
      | cons a l => rfl
    constructor
    · unfold Instrument
      rw [hparse]
      simp only [hempty]
      show convFinish02 skip cols cols.length (rows.map rowItem) = _
      unfold convFinish02 buildRecords02
      rw [buildLoop02_all_ok skip cols rows hlen]
      simp
    · unfold csv2Json
      rw [hparse]
      simp only [hempty]
      show convFinish01 skip cols cols.length (rows.map rowItem) = _
      unfold convFinish01
      rw [buildLoop01_all_ok skip cols rows hlen]
      simp
  · intro cols l fs hne hcount
    have h0 : cols.length ≠ 0 := by
      cases cols with
      | nil => exact absurd rfl hne
      | cons a t => simp
    simp [readOne, h0, hcount]

/-- Claim C8 witness: the override example on the package-main driver. -/
theorem C8_override_witness :
    csv2Json ⟨["x", "y", "z"], false⟩ ("a,b,c\n1,2,3\n".toList) =
      ConvOut.ok (encodeRecords [[("x", "a"), ("y", "b"), ("z", "c")],
                                 [("x", "1"), ("y", "2"), ("z", "3")]]) [] := by
  have h := (C8_override_resolver.1 ("a,b,c\n1,2,3\n".toList) false ["x", "y", "z"]
    [(1, ["a", "b", "c"]), (2, ["1", "2", "3"])] (by decide) (by decide) (by decide)).2
  rw [h]
  decide

/-- Claim C9: empty input and whitespace-only input, with no column
override, convert without error to the JSON array `[]` for either value of
skip_errors (end-of-input on the header read yields an empty column
sequence and an empty record collection). -/
theorem C9_empty_and_whitespace_inputs :
    ∀ skip : Bool,
      Instrument ⟨[], skip⟩ ("".toList) = ConvOut.ok (encodeRecords []) [] ∧
        Instrument ⟨[], skip⟩ ("    ".toList) = ConvOut.ok (encodeRecords []) [] ∧
        encodeRecords [] = "[]" ++ "\n" := by
  decide

/-- Claim C10: when the same column name occurs at several indices and the
row is at least as long as the column sequence, the record maps that name
to the row value at the greatest index where the name occurs (later
positions overwrite earlier ones), and the record keys contain each
distinct name exactly once. -/
theorem C10_duplicate_columns_last_wins :
    ∀ (cols row : List String) (i : Nat) (name : String),
      cols.length ≤ row.length →
      cols[i]? = some name →
      (∀ j, i < j → cols[j]? ≠ some name) →
      ∃ rec, fieldsToRecord cols row = some rec ∧
        recLookup rec name = row[i]? ∧
        (recKeys rec).Nodup := by
  intro cols row i name hlen hi hlast
  refine ⟨build_record cols row, fieldsToRecord_eq cols row hlen, ?_, ?_⟩
  · rw [build_record, recLookup_buildRecordAux,
      recLookup_zip_reverse_last cols row i name hlen hi hlast]
    cases row[i]? <;> simp [optOr, recLookup]
  · exact nodup_recKeys_buildRecordAux cols row [] (by simp [recKeys])

/-- Claim C10 witness: `a` occurs at indices 0 and 2; the record maps `a`
to the value at index 2 and has one entry per distinct name. -/
theorem C10_duplicate_witness :
    ∃ rec, fieldsToRecord ["a", "b", "a"] ["1", "2", "3"] = some rec ∧
      recLookup rec "a" = (["1", "2", "3"] : List String)[2]? ∧
      (recKeys rec).Nodup :=
  C10_duplicate_columns_last_wins ["a", "b", "a"] ["1", "2", "3"] 2 "a" (by decide) (by decide)
    (fun j hj => by
      rw [List.getElem?_eq_none
        (by simp only [List.length_cons, List.length_nil]; omega :
          (["a", "b", "a"] : List String).length ≤ j)]
      exact fun h => Option.noConfusion h)

end Csv2Json
